import Mathlib

/-!
Verification of the batch image-to-GIF pipeline (`gif_maker.py`).

The development shallowly embeds `GIFMaker.create_gif_from_images`, the
CLI wiring in `main`, and the helpers they use.  Filenames are modelled
as lists of characters (the ASCII fragment of Python strings), images by
their pixel dimensions, and the interactions with the file system /
`PIL` / `psutil` by an explicit environment (`Env`) holding the folder
listing, the per-file decode results, the available memory and the
sequence of memory-utilization samples.  Python's float arithmetic in
the memory-budget computation is modelled exactly over `ℚ`.
-/

namespace GifMaker

/-- A Python string (filename, path); ASCII fragment, one `Char` per code point. -/
abbrev Name := List Char

/-- ASCII lower-casing of one character, the behaviour of `str.lower` on ASCII. -/
def toLowerCh (c : Char) : Char :=
  if 'A' ≤ c ∧ c ≤ 'Z' then Char.ofNat (c.toNat + 32) else c

/-- `file.lower()` on an ASCII filename. -/
def pyLower (s : Name) : Name := s.map toLowerCh

/-- `self.supported_formats = {'.jpg', '.jpeg', '.png', '.bmp', '.tiff', '.webp'}`. -/
def supportedFormats : List Name :=
  [ ['.', 'j', 'p', 'g'],
    ['.', 'j', 'p', 'e', 'g'],
    ['.', 'p', 'n', 'g'],
    ['.', 'b', 'm', 'p'],
    ['.', 't', 'i', 'f', 'f'],
    ['.', 'w', 'e', 'b', 'p'] ]

/-- `any(file.lower().endswith(fmt) for fmt in self.supported_formats)`:
the Format Filter applied to one directory entry. -/
def isSupportedFile (file : Name) : Bool :=
  supportedFormats.any (fun fmt => fmt.isSuffixOf (pyLower file))

/-- `os.path.join(image_folder, file)` (folder not ending in a separator). -/
def joinPath (folder file : Name) : Name := folder ++ '/' :: file

/-- `os.path.basename(x)`: the part of the path after the last separator. -/
def basename (p : Name) : Name := (p.reverse.takeWhile (fun c => c ≠ '/')).reverse

/-- `int(''.join(filter(str.isdigit, os.path.basename(x))) or 0)`:
the numeric sort key of a path, the value of the digit characters of its
base filename read as one decimal number, `0` if there are none. -/
def digitKey (p : Name) : Nat :=
  ((basename p).filter Char.isDigit).foldl (fun n c => 10 * n + (c.toNat - 48)) 0

/-- Comparison on index-tagged paths realising the stable numeric sort
`image_files.sort(key=...)`: ascending digit key, ties by original position
(Python's `list.sort` is stable). -/
def numLe (a b : Nat × Name) : Prop :=
  digitKey a.2 < digitKey b.2 ∨ (digitKey a.2 = digitKey b.2 ∧ a.1 ≤ b.1)

/-- Comparison on index-tagged paths realising the plain stable sort
`image_files.sort()`: ascending lexicographic path order, ties by original
position. -/
def lexLe (a b : Nat × Name) : Prop :=
  a.2 < b.2 ∨ (a.2 = b.2 ∧ a.1 ≤ b.1)

instance : DecidableRel numLe := fun a b =>
  inferInstanceAs (Decidable (_ ∨ _))

instance : DecidableRel lexLe := fun a b =>
  inferInstanceAs (Decidable (_ ∨ _))

instance : IsTotal (Nat × Name) numLe :=
  ⟨fun a b => by
    unfold numLe
    rcases Nat.lt_trichotomy (digitKey a.2) (digitKey b.2) with h | h | h
    · exact Or.inl (Or.inl h)
    · rcases Nat.le_total a.1 b.1 with h2 | h2
      · exact Or.inl (Or.inr ⟨h, h2⟩)
      · exact Or.inr (Or.inr ⟨h.symm, h2⟩)
    · exact Or.inr (Or.inl h)⟩

instance : IsTrans (Nat × Name) numLe :=
  ⟨fun a b c hab hbc => by
    unfold numLe at *
    rcases hab with h1 | ⟨h1, h1i⟩ <;> rcases hbc with h2 | ⟨h2, h2i⟩
    · exact Or.inl (h1.trans h2)
    · exact Or.inl (h2 ▸ h1)
    · exact Or.inl (h1 ▸ h2)
    · exact Or.inr ⟨h1.trans h2, h1i.trans h2i⟩⟩

instance : IsTotal (Nat × Name) lexLe :=
  ⟨fun a b => by
    unfold lexLe
    rcases lt_trichotomy a.2 b.2 with h | h | h
    · exact Or.inl (Or.inl h)
    · rcases Nat.le_total a.1 b.1 with h2 | h2
      · exact Or.inl (Or.inr ⟨h, h2⟩)
      · exact Or.inr (Or.inr ⟨h.symm, h2⟩)
    · exact Or.inr (Or.inl h)⟩

instance : IsTrans (Nat × Name) lexLe :=
  ⟨fun a b c hab hbc => by
    unfold lexLe at *
    rcases hab with h1 | ⟨h1, h1i⟩ <;> rcases hbc with h2 | ⟨h2, h2i⟩
    · exact Or.inl (h1.trans h2)
    · exact Or.inl (h2 ▸ h1)
    · exact Or.inl (h1 ▸ h2)
    · exact Or.inr ⟨h1.trans h2, h1i.trans h2i⟩⟩

/-- Python's stable `list.sort(key=...)`, realised as sorting the list
tagged with original positions by (key, position). -/
def pySortNumeric (l : List Name) : List Name :=
  (l.enum.insertionSort numLe).map Prod.snd

/-- Python's stable `list.sort()` on paths. -/
def pySortLex (l : List Name) : List Name :=
  (l.enum.insertionSort lexLe).map Prod.snd

/-- `if sort_numerically: image_files.sort(key=...) else: image_files.sort()`. -/
def sortPaths (numeric : Bool) (paths : List Name) : List Name :=
  if numeric then pySortNumeric paths else pySortLex paths

/-- The automatic frame budget of the source, computed exactly:
`min(int(available_memory * 0.5 / (2 * 1024 * 1024)), 10000)`. -/
def computedMaxFrames (availableMemory : Nat) : Nat :=
  min ⌊(availableMemory : ℚ) * (1 / 2) / (2 * 1024 * 1024)⌋₊ 10000

/-- `base_size` derivation for the first successfully decoded frame:
keep the decoded size unless an axis exceeds 1920, in which case scale both
axes by `min(1920/w, 1920/h)` and truncate to integers (`int(...)`). -/
def deriveBase (wh : Nat × Nat) : Nat × Nat :=
  if 1920 < wh.1 ∨ 1920 < wh.2 then
    (wh.1 * 1920 / max wh.1 wh.2, wh.2 * 1920 / max wh.1 wh.2)
  else wh

/-- The interactions of one pipeline run with the outside world:
folder contents (`none` when `os.listdir` raises), decode results per path
(`none` when `Image.open`/processing raises, otherwise the decoded pixel
dimensions after RGB conversion), available system memory in bytes, the
successive `psutil.virtual_memory().percent` samples, and whether the final
`save` call succeeds. -/
structure Env where
  folder : Name
  listing : Option (List Name)
  decode : Name → Option (Nat × Nat)
  availableMemory : Nat
  memPercent : Nat → Nat
  saveOk : Bool

/-- The keyword arguments of `create_gif_from_images`. -/
structure Settings where
  duration : Nat
  loop : Nat
  optimize : Bool
  quality : Nat
  sortNumerically : Bool
  maxFrames : Option Nat

/-- The distinguishable failure outcomes of one run (each is a raised
exception caught by the outer `except`, or a failing `save`). -/
inductive GifError
  | folderNotFound
  | noSupportedFiles
  | noFramesProcessed
  | encodeError
deriving DecidableEq, Repr

/-- The artifact written by `images[0].save(...)`: the frame sequence
(each frame recorded with its source path and its pixel dimensions) and the
encoding parameters actually passed to `save`. -/
structure Encoded where
  frames : List (Name × Nat × Nat)
  duration : Nat
  loop : Nat
  optimize : Bool
deriving DecidableEq, Repr

/-- Observable side effects of a run: whether the folder was listed,
the positions (1-based counts) at which memory was sampled, whether the
batch loop stopped early, and whether `save` was invoked. -/
structure Trace where
  listed : Bool
  samples : List Nat
  stopped : Bool
  saveAttempted : Bool
deriving DecidableEq, Repr

/-- The per-file loop of `create_gif_from_images` (lines 87-126): iterate
the file list; on decode failure skip the file; the first success fixes
`base_size` (the first frame itself is appended at its decoded size, later
frames at `base_size`); after appending, when the 1-based position is a
multiple of 100, collect garbage and sample memory, stopping early when the
sample exceeds 80 and at least one frame is held.  Returns the appended
frames, the sample positions, and the early-stop flag. -/
def processLoop (env : Env) :
    List Name → Nat → Nat → Option (Nat × Nat) → Nat →
    List (Name × Nat × Nat) × List Nat × Bool
  | [], _, _, _, _ => ([], [], false)
  | p :: rest, i, k, base, n =>
    match env.decode p with
    | none => processLoop env rest (i + 1) k base n
    | some wh =>
      let fr := match base with
        | none => wh
        | some b => b
      let base2 := match base with
        | none => deriveBase wh
        | some b => b
      let n2 := n + 1
      if (i + 1) % 100 = 0 then
        if 80 < env.memPercent k ∧ 0 < n2 then
          ([(p, fr)], [i + 1], true)
        else
          let r := processLoop env rest (i + 1) (k + 1) (some base2) n2
          ((p, fr) :: r.1, (i + 1) :: r.2.1, r.2.2)
      else
        let r := processLoop env rest (i + 1) k (some base2) n2
        ((p, fr) :: r.1, r.2.1, r.2.2)

/-- The folder listing (empty when `os.listdir` raises; that case aborts
the run before this list is used). -/
def listedNames (env : Env) : List Name := env.listing.getD []

/-- Lines 58-61: the listed entries passing the Format Filter, joined
with the folder path, in listing order. -/
def candidatePaths (env : Env) : List Name :=
  ((listedNames env).filter isSupportedFile).map (joinPath env.folder)

/-- Lines 66-70: the candidate paths in processing order. -/
def orderedPaths (env : Env) (s : Settings) : List Name :=
  sortPaths s.sortNumerically (candidatePaths env)

/-- Lines 46-52: the effective frame cap — the caller's `max_frames`
when supplied, otherwise the memory-derived budget. -/
def effectiveMaxFrames (env : Env) (s : Settings) : Nat :=
  match s.maxFrames with
  | some m => m
  | none => computedMaxFrames env.availableMemory

/-- Lines 72-75: the ordered list truncated to the effective cap. -/
def truncatedPaths (env : Env) (s : Settings) : List Name :=
  (orderedPaths env s).take (effectiveMaxFrames env s)

/-- The batch-processing phase of a run, started on the truncated list
with no `base_size` and an empty frame buffer. -/
def processed (env : Env) (s : Settings) :
    List (Name × Nat × Nat) × List Nat × Bool :=
  processLoop env (truncatedPaths env s) 0 0 none 0

/-- Lines 132-139: `images[0].save(..., append_images=images[1:], ...)` —
the written frame sequence is the first frame followed by the rest in
buffer order. -/
def encodeSequence (frames : List (Name × Nat × Nat)) : List (Name × Nat × Nat) :=
  match frames with
  | [] => []
  | f :: rest => f :: rest

/-- The whole body of `create_gif_from_images`, as the outcome (the
encoded artifact, or the error the raised exception reports) paired with
the run's observable side effects. -/
def runPipeline (env : Env) (s : Settings) : Except GifError Encoded × Trace :=
  match env.listing with
  | none => (.error .folderNotFound, ⟨false, [], false, false⟩)
  | some _ =>
    if candidatePaths env = [] then
      (.error .noSupportedFiles, ⟨true, [], false, false⟩)
    else
      let r := processed env s
      if r.1 = [] then
        (.error .noFramesProcessed, ⟨true, r.2.1, r.2.2, false⟩)
      else if env.saveOk then
        (.ok ⟨encodeSequence r.1, s.duration, s.loop, s.optimize⟩,
         ⟨true, r.2.1, r.2.2, true⟩)
      else
        (.error .encodeError, ⟨true, r.2.1, r.2.2, true⟩)

/-- `create_gif_from_images` as seen by its callers: `True` when the body
completes, `False` when any exception is caught (lines 145-147). -/
def create_gif_from_images (env : Env) (s : Settings) : Bool :=
  match (runPipeline env s).1 with
  | .ok _ => true
  | .error _ => false

/-- The parsed command-line arguments of `main` (lines 343-350). -/
structure CliArgs where
  folder : Name
  output : Name
  duration : Nat
  loop : Nat
  maxArg : Option Int
  noOptimize : Bool
  noSort : Bool
  maxSize : Option Int

/-- The settings `main` actually passes to `create_gif_from_images`
(lines 355-362): duration, loop, optimize and sort flags are forwarded;
`quality` is left at its default 85; `args.max` and `args.max_size` are
parsed but not forwarded, so `max_frames` is always `None`. -/
def mainSettings (a : CliArgs) : Settings :=
  { duration := a.duration
    loop := a.loop
    optimize := !a.noOptimize
    quality := 85
    sortNumerically := !a.noSort
    maxFrames := none }

/-- `sys.exit(0 if success else 1)` (line 364). -/
def mainExitCode (env : Env) (a : CliArgs) : Nat :=
  if create_gif_from_images env (mainSettings a) then 0 else 1

/-- Spec-side notion of extension: the suffix of a filename starting at its
last dot, empty when there is no dot.  Stated over the lowered name, this is
the "extension, compared case-insensitively" of the specification's Format
Filter contract, to be compared with the source's `endswith` test. -/
def extOf (s : Name) : Name :=
  if '.' ∈ s then '.' :: (s.reverse.takeWhile (fun c => c ≠ '.')).reverse else []

instance {ε α : Type} [DecidableEq ε] [DecidableEq α] : DecidableEq (Except ε α) := fun a b =>
  match a, b with
  | .ok x, .ok y => decidable_of_iff (x = y) (by simp)
  | .error x, .error y => decidable_of_iff (x = y) (by simp)
  | .ok _, .error _ => isFalse (by simp)
  | .error _, .ok _ => isFalse (by simp)

/-! Concrete environments used by counterexamples and witnesses. -/

def dFolder : Name := ['d']

def nameA : Name := ['a', '.', 'p', 'n', 'g']

def nameB : Name := ['b', '.', 'p', 'n', 'g']

/-- Settings with an explicit caller cap (matching the keyword defaults of
`create_gif_from_images` otherwise). -/
def sQuick : Settings :=
  { duration := 500, loop := 0, optimize := true, quality := 85,
    sortNumerically := true, maxFrames := some 100 }

/-- The keyword defaults of `create_gif_from_images`: no caller cap. -/
def sAuto : Settings :=
  { duration := 500, loop := 0, optimize := true, quality := 85,
    sortNumerically := true, maxFrames := none }

/-- Two decodable images, the first 3840x2160 (beyond the 1920 threshold),
the second 100x100. -/
def envC1 : Env :=
  { folder := dFolder
    listing := some [nameA, nameB]
    decode := fun p =>
      if p = joinPath dFolder nameA then some (3840, 2160)
      else if p = joinPath dFolder nameB then some (100, 100)
      else none
    availableMemory := 8589934592
    memPercent := fun _ => 10
    saveOk := true }

def name1 : Name := ['1', '.', 'p', 'n', 'g']

def name2 : Name := ['2', '.', 'p', 'n', 'g']

def name3 : Name := ['3', '.', 'p', 'n', 'g']

/-- Three decodable images and ample memory (8 GiB available). -/
def envC2 : Env :=
  { folder := dFolder
    listing := some [name1, name2, name3]
    decode := fun _ => some (10, 10)
    availableMemory := 8589934592
    memPercent := fun _ => 0
    saveOk := true }

/-- A CLI invocation passing the max-frame option `-m 1` and the
max-dimension option `--max-size 100`. -/
def argsC2 : CliArgs :=
  { folder := dFolder, output := ['o', '.', 'g', 'i', 'f'], duration := 500,
    loop := 0, maxArg := some 1, noOptimize := false, noSort := false,
    maxSize := some 100 }

/-- One perfectly decodable image but under 4 MiB of available memory, so
the automatic frame budget computes to 0. -/
def envC3 : Env :=
  { folder := dFolder
    listing := some [nameA]
    decode := fun _ => some (5, 5)
    availableMemory := 1000000
    memPercent := fun _ => 0
    saveOk := true }

/-- A folder whose one file never decodes. -/
def envC5 : Env :=
  { folder := dFolder
    listing := some [nameA]
    decode := fun _ => none
    availableMemory := 8589934592
    memPercent := fun _ => 0
    saveOk := true }

def namesW4 : List Name :=
  [['b', '2', '.', 'p', 'n', 'g'], ['a', '1', '0', '.', 'p', 'n', 'g']]

def envW4 : Env :=
  { folder := dFolder
    listing := some namesW4
    decode := fun _ => some (5, 5)
    availableMemory := 8589934592
    memPercent := fun _ => 0
    saveOk := true }

/-- `"<n>.png"`. -/
def nameN (n : Nat) : Name := Nat.toDigits 10 n ++ ['.', 'p', 'n', 'g']

/-- 101 files `1.png` .. `101.png`. -/
def filesC8 : List Name := (List.range 101).map (fun n => nameN (n + 1))

/-- 101 files of which exactly `100.png` fails to decode, with system
memory utilization pinned above the 80 percent threshold throughout. -/
def envC8 : Env :=
  { folder := dFolder
    listing := some filesC8
    decode := fun p =>
      if p = joinPath dFolder (nameN 100) then none
      else some (5, 5)
    availableMemory := 0
    memPercent := fun _ => 90
    saveOk := true }

def sNum1000 : Settings :=
  { duration := 500, loop := 0, optimize := true, quality := 85,
    sortNumerically := true, maxFrames := some 1000 }

/-- One decodable image with utilization pinned at 90 percent. -/
def envW8 : Env :=
  { folder := dFolder
    listing := some [name1]
    decode := fun _ => some (5, 5)
    availableMemory := 8589934592
    memPercent := fun _ => 90
    saveOk := true }

/-- One decodable image with utilization pinned at 10 percent. -/
def envLow : Env :=
  { folder := dFolder
    listing := some [name1]
    decode := fun _ => some (5, 5)
    availableMemory := 8589934592
    memPercent := fun _ => 10
    saveOk := true }

def pathW8 : Name := joinPath dFolder name1

/-- A nonexistent folder: `os.listdir` raises. -/
def envNone : Env :=
  { folder := dFolder
    listing := none
    decode := fun _ => none
    availableMemory := 8589934592
    memPercent := fun _ => 0
    saveOk := true }

def argsW9 : CliArgs :=
  { folder := dFolder, output := ['o'], duration := 500, loop := 0,
    maxArg := none, noOptimize := false, noSort := false, maxSize := none }

end GifMaker

namespace GifMaker

/-! General lemmas about the embedded definitions. -/

/-- The exact rational budget formula collapses to natural division:
`int(avail * 0.5 / 2MiB)` is `avail / 4194304`. -/
theorem computedMaxFrames_eq (a : Nat) :
    computedMaxFrames a = min (a / 4194304) 10000 := by
  unfold computedMaxFrames
  congr 1
  have h : (a : ℚ) * (1 / 2) / (2 * 1024 * 1024) = (a : ℚ) / (4194304 : ℕ) := by
    push_cast
    ring
  rw [h, Nat.floor_div_nat, Nat.floor_natCast]

/-- A run with the automatic budget behaves like a run whose caller cap is
the collapsed formula value. -/
theorem runPipeline_autoCap (env : Env) (s : Settings) (h : s.maxFrames = none) :
    runPipeline env s =
      runPipeline env
        { s with maxFrames := some (min (env.availableMemory / 4194304) 10000) } := by
  have hc : effectiveMaxFrames env s =
      effectiveMaxFrames env
        { s with maxFrames := some (min (env.availableMemory / 4194304) 10000) } := by
    unfold effectiveMaxFrames
    rw [h]
    exact computedMaxFrames_eq env.availableMemory
  have ht : truncatedPaths env s =
      truncatedPaths env
        { s with maxFrames := some (min (env.availableMemory / 4194304) 10000) } := by
    unfold truncatedPaths orderedPaths
    rw [hc]
  unfold runPipeline processed
  rw [ht]

/-- Once `base_size` is fixed, every frame the loop appends has exactly
that size. -/
theorem processLoop_base_const (env : Env) :
    ∀ (files : List Name) (i k : Nat) (b : Nat × Nat) (n : Nat),
      ∀ f ∈ (processLoop env files i k (some b) n).1, f.2 = b := by
  intro files
  induction files with
  | nil => intro i k b n f hf; simp [processLoop] at hf
  | cons p rest ih =>
    intro i k b n f hf
    rcases hd : env.decode p with _ | wh
    · rw [processLoop, hd] at hf
      exact ih _ _ b _ f hf
    · rw [processLoop, hd] at hf
      simp only at hf
      by_cases hb : (i + 1) % 100 = 0
      · rw [if_pos hb] at hf
        by_cases hm : 80 < env.memPercent k ∧ 0 < n + 1
        · rw [if_pos hm] at hf
          simp at hf
          subst hf
          rfl
        · rw [if_neg hm] at hf
          simp only [List.mem_cons] at hf
          rcases hf with hf | hf
          · subst hf; rfl
          · exact ih _ _ b _ f hf
      · rw [if_neg hb] at hf
        simp only [List.mem_cons] at hf
        rcases hf with hf | hf
        · subst hf; rfl
        · exact ih _ _ b _ f hf

/-- A loop started with no `base_size` either produces nothing, or its
first frame is some file's decoded size, with every later frame resized to
the base derived from that first size. -/
theorem processLoop_first_shape (env : Env) :
    ∀ (files : List Name) (i k n : Nat),
      (processLoop env files i k none n).1 = [] ∨
      ∃ p wh rest2, env.decode p = some wh ∧
        (processLoop env files i k none n).1 = (p, wh) :: rest2 ∧
        ∀ f ∈ rest2, f.2 = deriveBase wh := by
  intro files
  induction files with
  | nil => intro i k n; left; rfl
  | cons p rest ih =>
    intro i k n
    rcases hd : env.decode p with _ | wh
    · rw [processLoop, hd]
      exact ih _ _ _
    · right
      rw [processLoop, hd]
      simp only
      by_cases hb : (i + 1) % 100 = 0
      · rw [if_pos hb]
        by_cases hm : 80 < env.memPercent k ∧ 0 < n + 1
        · rw [if_pos hm]
          exact ⟨p, wh, [], hd, rfl, by simp⟩
        · rw [if_neg hm]
          refine ⟨p, wh, _, hd, rfl, ?_⟩
          intro f hf
          exact processLoop_base_const env rest _ _ _ _ f hf
      · rw [if_neg hb]
        refine ⟨p, wh, _, hd, rfl, ?_⟩
        intro f hf
        exact processLoop_base_const env rest _ _ _ _ f hf

/-- The loop produces no frame exactly when every file fails to decode. -/
theorem processLoop_isEmpty_iff (env : Env) :
    ∀ (files : List Name) (i k : Nat) (base : Option (Nat × Nat)) (n : Nat),
      (processLoop env files i k base n).1 = [] ↔
      ∀ p ∈ files, env.decode p = none := by
  intro files
  induction files with
  | nil => intro i k base n; simp [processLoop]
  | cons p rest ih =>
    intro i k base n
    rcases hd : env.decode p with _ | wh
    · rw [processLoop, hd]
      rw [ih]
      simp only [List.mem_cons]
      constructor
      · intro h q hq
        rcases hq with rfl | hq
        · exact hd
        · exact h q hq
      · intro h q hq
        exact h q (Or.inr hq)
    · rw [processLoop, hd]
      simp only
      constructor
      · intro h
        exfalso
        by_cases hb : (i + 1) % 100 = 0
        · rw [if_pos hb] at h
          by_cases hm : 80 < env.memPercent k ∧ 0 < n + 1
          · rw [if_pos hm] at h
            simp at h
          · rw [if_neg hm] at h
            simp at h
        · rw [if_neg hb] at h
          simp at h
      · intro h
        exact absurd hd (by simp [h p (List.mem_cons_self p rest)])

/-- The paths of the produced frames are exactly the decodable files of
some prefix of the input list, in input order; the prefix is the whole list
unless the loop stopped early. -/
theorem processLoop_take_filter (env : Env) :
    ∀ (files : List Name) (i k : Nat) (base : Option (Nat × Nat)) (n : Nat),
      ∃ j ≤ files.length,
        ((processLoop env files i k base n).1.map Prod.fst =
          ((files.take j).filter (fun p => (env.decode p).isSome))) ∧
        ((processLoop env files i k base n).2.2 = false → j = files.length) := by
  intro files
  induction files with
  | nil => intro i k base n; exact ⟨0, by simp, by simp [processLoop], fun _ => rfl⟩
  | cons p rest ih =>
    intro i k base n
    rcases hd : env.decode p with _ | wh
    · obtain ⟨j, hj, hmap, hstop⟩ := ih (i + 1) k base n
      refine ⟨j + 1, by simpa using hj, ?_, ?_⟩
      · rw [processLoop, hd]
        simp only [List.take_succ_cons, List.filter_cons]
        rw [hd]
        simpa using hmap
      · intro h
        rw [processLoop, hd] at h
        simp [hstop h]
    · by_cases hb : (i + 1) % 100 = 0
      · by_cases hm : 80 < env.memPercent k ∧ 0 < n + 1
        · refine ⟨1, by simp, ?_, ?_⟩
          · rw [processLoop, hd]
            simp only [if_pos hb, if_pos hm]
            simp [List.filter_cons, hd]
          · intro h
            rw [processLoop, hd] at h
            simp only [if_pos hb, if_pos hm] at h
            simp at h
        · obtain ⟨j, hj, hmap, hstop⟩ := ih (i + 1) (k + 1)
            (some (match base with | none => deriveBase wh | some b => b)) (n + 1)
          refine ⟨j + 1, by simpa using hj, ?_, ?_⟩
          · rw [processLoop, hd]
            simp only [if_pos hb, if_neg hm]
            simp only [List.take_succ_cons, List.filter_cons, hd]
            simpa using hmap
          · intro h
            rw [processLoop, hd] at h
            simp only [if_pos hb, if_neg hm] at h
            simp [hstop h]
      · obtain ⟨j, hj, hmap, hstop⟩ := ih (i + 1) k
          (some (match base with | none => deriveBase wh | some b => b)) (n + 1)
        refine ⟨j + 1, by simpa using hj, ?_, ?_⟩
        · rw [processLoop, hd]
          simp only [if_neg hb]
          simp only [List.take_succ_cons, List.filter_cons, hd]
          simpa using hmap
        · intro h
          rw [processLoop, hd] at h
          simp only [if_neg hb] at h
          simp [hstop h]

/-- Every recorded memory sample sits at a positive multiple of the batch
size 100. -/
theorem processLoop_samples_mod (env : Env) :
    ∀ (files : List Name) (i k : Nat) (base : Option (Nat × Nat)) (n : Nat),
      ∀ m ∈ (processLoop env files i k base n).2.1, m % 100 = 0 ∧ 0 < m := by
  intro files
  induction files with
  | nil => intro i k base n m hm; simp [processLoop] at hm
  | cons p rest ih =>
    intro i k base n m hm
    rcases hd : env.decode p with _ | wh
    · rw [processLoop, hd] at hm
      exact ih _ _ _ _ m hm
    · rw [processLoop, hd] at hm
      simp only at hm
      by_cases hb : (i + 1) % 100 = 0
      · rw [if_pos hb] at hm
        by_cases hmem : 80 < env.memPercent k ∧ 0 < n + 1
        · rw [if_pos hmem] at hm
          simp at hm
          subst hm
          exact ⟨hb, Nat.succ_pos i⟩
        · rw [if_neg hmem] at hm
          simp only [List.mem_cons] at hm
          rcases hm with rfl | hm
          · exact ⟨hb, Nat.succ_pos i⟩
          · exact ih _ _ _ _ m hm
      · rw [if_neg hb] at hm
        exact ih _ _ _ _ m hm

/-- When every sample stays at or below 80 percent the loop never stops
early. -/
theorem processLoop_no_pressure_no_stop (env : Env)
    (hmem : ∀ k2, env.memPercent k2 ≤ 80) :
    ∀ (files : List Name) (i k : Nat) (base : Option (Nat × Nat)) (n : Nat),
      (processLoop env files i k base n).2.2 = false := by
  intro files
  induction files with
  | nil => intro i k base n; rfl
  | cons p rest ih =>
    intro i k base n
    rcases hd : env.decode p with _ | wh
    · rw [processLoop, hd]
      exact ih _ _ _ _
    · rw [processLoop, hd]
      simp only
      by_cases hb : (i + 1) % 100 = 0
      · rw [if_pos hb]
        rw [if_neg (by simp [Nat.not_lt.mpr (hmem k)])]
        exact ih _ _ _ _
      · rw [if_neg hb]
        exact ih _ _ _ _

/-- A successfully decoded file at a batch boundary always triggers a
memory sample, recorded first. -/
theorem processLoop_boundary_sample (env : Env) (p : Name) (rest : List Name)
    (i k n : Nat) (base : Option (Nat × Nat))
    (hd : (env.decode p).isSome) (hb : (i + 1) % 100 = 0) :
    (processLoop env (p :: rest) i k base n).2.1.head? = some (i + 1) := by
  rcases hd2 : env.decode p with _ | wh
  · rw [hd2] at hd; simp at hd
  · rw [processLoop, hd2]
    simp only [if_pos hb]
    by_cases hm : 80 < env.memPercent k ∧ 0 < n + 1
    · rw [if_pos hm]
      rfl
    · rw [if_neg hm]
      rfl

/-- A successfully decoded file at a batch boundary under memory pressure
stops the loop with just that frame appended. -/
theorem processLoop_boundary_stop (env : Env) (p : Name) (rest : List Name)
    (i k n : Nat) (base : Option (Nat × Nat))
    (hd : (env.decode p).isSome) (hb : (i + 1) % 100 = 0)
    (hm : 80 < env.memPercent k) :
    (processLoop env (p :: rest) i k base n).1.length = 1 ∧
    (processLoop env (p :: rest) i k base n).2.2 = true := by
  rcases hd2 : env.decode p with _ | wh
  · rw [hd2] at hd; simp at hd
  · rw [processLoop, hd2]
    simp only [if_pos hb]
    rw [if_pos ⟨hm, Nat.succ_pos n⟩]
    exact ⟨rfl, rfl⟩

/-- When either axis of a positive size exceeds 1920, the derived base has
its larger axis exactly 1920. -/
theorem deriveBase_larger_axis (w h2 : Nat) (hw : 0 < w) (hh : 0 < h2)
    (hover : 1920 < w ∨ 1920 < h2) :
    max (deriveBase (w, h2)).1 (deriveBase (w, h2)).2 = 1920 := by
  unfold deriveBase
  rw [if_pos hover]
  simp only
  rcases Nat.le_total w h2 with hle | hle
  · rw [Nat.max_eq_right hle]
    have h1 : h2 * 1920 / h2 = 1920 := by
      rw [Nat.mul_comm]
      exact Nat.mul_div_cancel 1920 hh
    have h2le : w * 1920 / h2 ≤ 1920 := by
      calc w * 1920 / h2 ≤ h2 * 1920 / h2 :=
            Nat.div_le_div_right (Nat.mul_le_mul_right 1920 hle)
        _ = 1920 := h1
    rw [h1]
    exact Nat.max_eq_right h2le
  · rw [Nat.max_eq_left hle]
    have h1 : w * 1920 / w = 1920 := by
      rw [Nat.mul_comm]
      exact Nat.mul_div_cancel 1920 hw
    have h2le : h2 * 1920 / w ≤ 1920 := by
      calc h2 * 1920 / w ≤ w * 1920 / w :=
            Nat.div_le_div_right (Nat.mul_le_mul_right 1920 hle)
        _ = 1920 := h1
    rw [h1]
    exact Nat.max_eq_left h2le

/-- The encoder writes the frame buffer exactly. -/
theorem encodeSequence_eq (l : List (Name × Nat × Nat)) : encodeSequence l = l := by
  cases l <;> rfl

end GifMaker

namespace GifMaker

/-! Lemmas about extensions and the Format Filter. -/

/-- A dot-free-tailed pattern `r ++ [dot]` prefixes `t` exactly when `t`
contains a dot and its maximal dot-free prefix is `r`. -/
theorem prefix_upto_dot (r : Name) (hr : ∀ c ∈ r, c ≠ '.') :
    ∀ t : Name, (r ++ ['.']) <+: t ↔
      ('.' ∈ t ∧ t.takeWhile (fun c => c ≠ '.') = r) := by
  induction r with
  | nil =>
    intro t
    cases t with
    | nil => simp
    | cons c t2 =>
      by_cases hc : c = '.'
      · subst hc
        simp [List.cons_prefix_cons]
      · simp only [List.nil_append, List.cons_prefix_cons]
        rw [List.takeWhile_cons_of_pos (by simpa using hc)]
        simp [hc, Ne.symm hc]
  | cons a r2 ih =>
    intro t
    have ha : a ≠ '.' := hr a (List.mem_cons_self a r2)
    have hr2 : ∀ c ∈ r2, c ≠ '.' := fun c hc => hr c (List.mem_cons_of_mem a hc)
    cases t with
    | nil => simp
    | cons c t2 =>
      by_cases hc : c = '.'
      · subst hc
        rw [List.takeWhile_cons_of_neg (by simp)]
        simp only [List.cons_append, List.cons_prefix_cons]
        constructor
        · intro ⟨hac, _⟩
          exact absurd hac.symm (Ne.symm ha)
        · intro ⟨_, hcontra⟩
          exact absurd hcontra.symm (by simp)
      · rw [List.takeWhile_cons_of_pos (by simpa using hc)]
        simp only [List.cons_append, List.cons_prefix_cons]
        by_cases hac : a = c
        · subst hac
          rw [ih hr2 t2]
          simp [hc, Ne.symm hc]
        · constructor
          · intro ⟨h1, _⟩
            exact absurd h1 hac
          · intro ⟨_, h2⟩
            injection h2 with h3 _
            exact absurd h3.symm hac

/-- A dot-headed, otherwise dot-free pattern is a suffix of `s` exactly
when `s` has a dot and everything after its last dot is the pattern's
tail. -/
theorem suffix_pattern_iff (rest : Name) (hrest : ∀ c ∈ rest, c ≠ '.') (s : Name) :
    ('.' :: rest) <:+ s ↔
      ('.' ∈ s ∧ s.reverse.takeWhile (fun c => c ≠ '.') = rest.reverse) := by
  rw [← List.reverse_prefix, List.reverse_cons]
  rw [prefix_upto_dot rest.reverse (by simpa using hrest) s.reverse]
  simp

/-! Lemmas about paths and the stable sorts. -/

theorem enumFrom_map_my {α β : Type} (f : α → β) :
    ∀ (n : Nat) (l : List α), (l.map f).enumFrom n = (l.enumFrom n).map (Prod.map id f) := by
  intro n l
  induction l generalizing n with
  | nil => rfl
  | cons x xs ih =>
    simp only [List.map_cons, List.enumFrom, ih]
    rfl

theorem enumFrom_fst_ge {α : Type} :
    ∀ (n : Nat) (l : List α), ∀ y ∈ l.enumFrom n, n ≤ y.1 := by
  intro n l
  induction l generalizing n with
  | nil => intro y hy; simp [List.enumFrom] at hy
  | cons x xs ih =>
    intro y hy
    simp only [List.enumFrom, List.mem_cons] at hy
    rcases hy with rfl | hy
    · exact Nat.le_refl n
    · exact Nat.le_of_succ_le (ih (n + 1) y hy)

theorem enumFrom_snd_mem {α : Type} :
    ∀ (n : Nat) (l : List α), ∀ y ∈ l.enumFrom n, y.2 ∈ l := by
  intro n l
  induction l generalizing n with
  | nil => intro y hy; simp [List.enumFrom] at hy
  | cons x xs ih =>
    intro y hy
    simp only [List.enumFrom, List.mem_cons] at hy
    rcases hy with rfl | hy
    · exact List.mem_cons_self x xs
    · exact List.mem_cons_of_mem x (ih (n + 1) y hy)

theorem enumFrom_pairwise_lt {α : Type} :
    ∀ (n : Nat) (l : List α), (l.enumFrom n).Pairwise (fun a b => a.1 < b.1) := by
  intro n l
  induction l generalizing n with
  | nil => exact List.Pairwise.nil
  | cons x xs ih =>
    simp only [List.enumFrom]
    refine List.Pairwise.cons ?_ (ih (n + 1))
    intro y hy
    exact Nat.lt_of_succ_le (enumFrom_fst_ge (n + 1) xs y hy)

theorem name_lt_iff (a b : Name) : a < b ↔ List.Lex (fun c d : Char => c < d) a b :=
  Iff.rfl

theorem lex_cons_cancel (c : Char) (a b : Name) : (c :: a) < (c :: b) ↔ a < b := by
  rw [name_lt_iff, name_lt_iff]
  exact List.Lex.cons_iff

theorem lex_append_cancel (s2 a b : Name) : (s2 ++ a) < (s2 ++ b) ↔ a < b := by
  induction s2 with
  | nil => rfl
  | cons c cs ih =>
    simp only [List.cons_append]
    rw [lex_cons_cancel]
    exact ih

theorem joinPath_lt_iff (folder a b : Name) :
    joinPath folder a < joinPath folder b ↔ a < b := by
  unfold joinPath
  rw [lex_append_cancel]
  rw [lex_cons_cancel]

theorem joinPath_inj_iff (folder a b : Name) :
    joinPath folder a = joinPath folder b ↔ a = b := by
  unfold joinPath
  constructor
  · intro h
    have h2 := List.append_cancel_left h
    injection h2
  · intro h
    rw [h]

theorem takeWhile_all_append {p : Char → Bool} (l1 : Name) (x : Char) (l2 : Name)
    (h1 : ∀ a ∈ l1, p a) (h2 : ¬ p x) :
    (l1 ++ x :: l2).takeWhile p = l1 := by
  rw [List.takeWhile_append_of_pos h1]
  rw [List.takeWhile_cons_of_neg h2]
  simp

theorem basename_no_slash (n : Name) (h : '/' ∉ n) : basename n = n := by
  unfold basename
  rw [List.takeWhile_eq_self_iff.mpr ?_]
  · exact List.reverse_reverse n
  · intro c hc
    simp only [List.mem_reverse] at hc
    simp only [ne_eq, decide_eq_true_eq]
    intro hcontra
    exact h (hcontra ▸ hc)

theorem basename_joinPath (folder n : Name) (h : '/' ∉ n) :
    basename (joinPath folder n) = n := by
  unfold basename joinPath
  rw [List.reverse_append, List.reverse_cons, List.append_assoc, List.singleton_append]
  rw [takeWhile_all_append n.reverse '/' folder.reverse ?_ (by simp)]
  · exact List.reverse_reverse n
  · intro a ha
    simp only [List.mem_reverse] at ha
    simp only [ne_eq, decide_eq_true_eq]
    intro hcontra
    exact h (hcontra ▸ ha)

theorem digitKey_joinPath (folder n : Name) (h : '/' ∉ n) :
    digitKey (joinPath folder n) = digitKey n := by
  unfold digitKey
  rw [basename_joinPath folder n h, basename_no_slash n h]

/-- Sorting the join-mapped, position-tagged list by a relation invariant
under joining equals join-mapping a tagged permutation of the input that is
sorted with all positions distinct. -/
theorem stable_sort_char (R : Nat × Name → Nat × Name → Prop) [DecidableRel R]
    [IsTotal (Nat × Name) R] [IsTrans (Nat × Name) R]
    (g : Name → Name) (l0 : List Name)
    (hiff : ∀ a ∈ l0.enum, ∀ b ∈ l0.enum, R a b ↔ R (a.1, g a.2) (b.1, g b.2)) :
    ∃ l : List (Nat × Name),
      l.Perm l0.enum ∧
      ((l0.map g).enum.insertionSort R).map Prod.snd = l.map (fun q => g q.2) ∧
      l.Pairwise (fun a b => R a b ∧ a.1 ≠ b.1) := by
  refine ⟨l0.enum.insertionSort R, List.perm_insertionSort R _, ?_, ?_⟩
  · rw [List.enum_eq_enumFrom, enumFrom_map_my g 0 l0, ← List.enum_eq_enumFrom]
    rw [← List.map_insertionSort R R (Prod.map id g) l0.enum hiff]
    rw [List.map_map]
    rfl
  · have h1 : (l0.enum.insertionSort R).Pairwise R := List.sorted_insertionSort R _
    have h2 : (l0.enum.insertionSort R).Pairwise (fun a b : Nat × Name => a.1 ≠ b.1) := by
      have hp : l0.enum.Pairwise (fun a b : Nat × Name => a.1 ≠ b.1) := by
        refine (enumFrom_pairwise_lt 0 l0).imp ?_
        intro a b hab
        exact Nat.ne_of_lt hab
      exact ((List.perm_insertionSort R l0.enum).pairwise_iff
        (fun hxy => Ne.symm hxy)).mpr hp
    exact h1.and h2

end GifMaker

namespace GifMaker

/-! The claims. -/

/-- C1 counterexample: on a run whose first image decodes at 3840x2160,
the derived base dimensions are 1920x1080 and every later frame gets them,
but the first frame itself is handed to the encoder at 3840x2160 — so not
every frame (including the first) has the base dimensions. -/
theorem C1_counterexample :
    (processed envC1 sQuick).1 =
      [(joinPath dFolder nameA, 3840, 2160), (joinPath dFolder nameB, 1920, 1080)] ∧
    deriveBase (3840, 2160) = (1920, 1080) ∧
    ((3840, 2160) : Nat × Nat) ≠ (1920, 1080) := by
  decide

/-- C1 (amended): in every run, BaseDimensions is the first successfully
decoded frame's size put through the downscale rule (larger axis to 1920
when either axis exceeds 1920), it never changes, and every frame after the
first is emitted at exactly BaseDimensions; the first frame is emitted at
its own decoded size. -/
theorem C1_base_dimensions (env : Env) (s : Settings) (p0 : Name) (wh0 : Nat × Nat)
    (rest : List (Name × Nat × Nat))
    (h : (processed env s).1 = (p0, wh0) :: rest) :
    (env.decode p0 = some wh0 ∧ ∀ f ∈ rest, f.2 = deriveBase wh0) ∧
    (∀ w h2 : Nat, 0 < w → 0 < h2 → (1920 < w ∨ 1920 < h2) →
      max (deriveBase (w, h2)).1 (deriveBase (w, h2)).2 = 1920) := by
  constructor
  · rcases processLoop_first_shape env (truncatedPaths env s) 0 0 0 with
      he | ⟨p, wh, rest2, hd, hshape, hall⟩
    · rw [processed] at h
      rw [he] at h
      exact absurd h (by simp)
    · rw [processed] at h
      rw [hshape] at h
      injection h with h1 h2
      injection h1 with hp hwh
      subst hp
      subst hwh
      subst h2
      exact ⟨hd, hall⟩
  · intro w h2 hw hh hover
    exact deriveBase_larger_axis w h2 hw hh hover

/-- C1 witness: the amended statement instantiated on the concrete
3840x2160-first run. -/
theorem C1_base_dimensions_witness :
    (envC1.decode (joinPath dFolder nameA) = some (3840, 2160) ∧
      ∀ f ∈ [(joinPath dFolder nameB, (1920, 1080))], f.2 = deriveBase (3840, 2160)) ∧
    (∀ w h2 : Nat, 0 < w → 0 < h2 → (1920 < w ∨ 1920 < h2) →
      max (deriveBase (w, h2)).1 (deriveBase (w, h2)).2 = 1920) :=
  C1_base_dimensions envC1 sQuick (joinPath dFolder nameA) (3840, 2160)
    [(joinPath dFolder nameB, (1920, 1080))] (by decide)

/-- C2: the CLI parses `-m`/`--max` and `--max-size` but `main` does not
forward them to `create_gif_from_images`; with `-m 1` and `--max-size 100`
on a 3-image folder, the effective cap stays the automatic one and all 3
frames are produced (and no 100-pixel threshold is applied). -/
theorem C2_cli_options_ignored :
    (mainSettings argsC2).maxFrames = none ∧
    (∀ m1 m2 s1 s2 : Option Int,
      mainSettings { argsC2 with maxArg := m1, maxSize := s1 } =
        mainSettings { argsC2 with maxArg := m2, maxSize := s2 }) ∧
    (runPipeline envC2 (mainSettings argsC2)).1 =
      .ok ⟨[(joinPath dFolder name1, 10, 10), (joinPath dFolder name2, 10, 10),
            (joinPath dFolder name3, 10, 10)], 500, 0, true⟩ := by
  refine ⟨rfl, fun m1 m2 s1 s2 => rfl, ?_⟩
  rw [runPipeline_autoCap envC2 (mainSettings argsC2) rfl]
  decide

/-- C3 counterexample: with 1000000 bytes available and no caller cap the
computed budget is 0, yet the run does not fail with a configuration error
before any file I/O — it lists the folder and then fails with the
no-frames-processed error. -/
theorem C3_counterexample :
    effectiveMaxFrames envC3 sAuto = 0 ∧
    (runPipeline envC3 sAuto).1 = .error .noFramesProcessed ∧
    (runPipeline envC3 sAuto).2.listed = true := by
  have h := runPipeline_autoCap envC3 sAuto rfl
  refine ⟨?_, ?_, ?_⟩
  · show computedMaxFrames envC3.availableMemory = 0
    rw [computedMaxFrames_eq]
    decide
  · rw [h]
    decide
  · rw [h]
    decide

/-- C3 (amended): with no caller cap the effective maximum frame count is
`min(floor((available * 0.5) / 2MiB), 10000)`; there is no guard for a
non-positive value — when the computed budget is 0 and the folder holds
supported files, the file list is truncated to nothing and the run fails
with NoFramesProcessed after the folder listing, with no output written. -/
theorem C3_memory_budget (env : Env) (s : Settings) (names : List Name)
    (hmf : s.maxFrames = none) (hl : env.listing = some names)
    (hcap : computedMaxFrames env.availableMemory = 0)
    (hc : candidatePaths env ≠ []) :
    computedMaxFrames env.availableMemory =
      min (env.availableMemory / 4194304) 10000 ∧
    effectiveMaxFrames env s = 0 ∧
    truncatedPaths env s = [] ∧
    (runPipeline env s).1 = .error .noFramesProcessed ∧
    (runPipeline env s).2 = ⟨true, [], false, false⟩ := by
  have heff : effectiveMaxFrames env s = 0 := by
    unfold effectiveMaxFrames
    rw [hmf]
    exact hcap
  have ht : truncatedPaths env s = [] := by
    unfold truncatedPaths
    rw [heff]
    simp
  have hp : processed env s = ([], [], false) := by
    unfold processed
    rw [ht]
    rfl
  refine ⟨computedMaxFrames_eq env.availableMemory, heff, ht, ?_, ?_⟩
  · unfold runPipeline
    rw [hl, if_neg hc, hp]
    rfl
  · unfold runPipeline
    rw [hl, if_neg hc, hp]
    rfl

/-- C3 witness: the amended statement instantiated on the concrete
low-memory environment. -/
theorem C3_memory_budget_witness :
    computedMaxFrames envC3.availableMemory =
      min (envC3.availableMemory / 4194304) 10000 ∧
    effectiveMaxFrames envC3 sAuto = 0 ∧
    truncatedPaths envC3 sAuto = [] ∧
    (runPipeline envC3 sAuto).1 = .error .noFramesProcessed ∧
    (runPipeline envC3 sAuto).2 = ⟨true, [], false, false⟩ :=
  C3_memory_budget envC3 sAuto [nameA] rfl rfl
    (by rw [computedMaxFrames_eq]; decide) (by decide)

end GifMaker

namespace GifMaker

/-- C4: the processing order.  With numeric sorting the ordered path list
is the supported listing entries tagged with their original positions,
arranged strictly by (digit key of the base filename, original position) —
ascending digit keys with ties kept in listing order; without numeric
sorting it is arranged strictly by (filename lexicographic order, original
position) — case-sensitive ascending filenames. -/
theorem C4_processing_order (env : Env) (s : Settings) (names : List Name)
    (hl : env.listing = some names) (hs : ∀ n ∈ names, '/' ∉ n) :
    (s.sortNumerically = true →
      ∃ l : List (Nat × Name),
        l.Perm (names.filter isSupportedFile).enum ∧
        orderedPaths env s = l.map (fun q => joinPath env.folder q.2) ∧
        l.Pairwise (fun a b => digitKey a.2 < digitKey b.2 ∨
          (digitKey a.2 = digitKey b.2 ∧ a.1 < b.1))) ∧
    (s.sortNumerically = false →
      ∃ l : List (Nat × Name),
        l.Perm (names.filter isSupportedFile).enum ∧
        orderedPaths env s = l.map (fun q => joinPath env.folder q.2) ∧
        l.Pairwise (fun a b => a.2 < b.2 ∨ (a.2 = b.2 ∧ a.1 < b.1))) := by
  have hnames : listedNames env = names := by
    unfold listedNames
    rw [hl]
    rfl
  have hs0 : ∀ n ∈ names.filter isSupportedFile, '/' ∉ n :=
    fun n hn => hs n (List.mem_of_mem_filter hn)
  have hcand : candidatePaths env =
      (names.filter isSupportedFile).map (joinPath env.folder) := by
    unfold candidatePaths
    rw [hnames]
  constructor
  · intro hnum
    have hiff : ∀ a ∈ (names.filter isSupportedFile).enum,
        ∀ b ∈ (names.filter isSupportedFile).enum,
        numLe a b ↔ numLe (a.1, joinPath env.folder a.2) (b.1, joinPath env.folder b.2) := by
      intro a ha b hb
      unfold numLe
      simp only
      rw [digitKey_joinPath _ _ (hs0 a.2 (enumFrom_snd_mem 0 _ a ha))]
      rw [digitKey_joinPath _ _ (hs0 b.2 (enumFrom_snd_mem 0 _ b hb))]
    obtain ⟨l, hperm, hmap, hpw⟩ :=
      stable_sort_char numLe (joinPath env.folder) (names.filter isSupportedFile) hiff
    refine ⟨l, hperm, ?_, ?_⟩
    · unfold orderedPaths sortPaths
      rw [hnum]
      simp only [if_true]
      unfold pySortNumeric
      rw [hcand]
      exact hmap
    · refine hpw.imp ?_
      intro a b hab
      rcases hab with ⟨hR, hne⟩
      rcases hR with h | ⟨heq, hle⟩
      · exact Or.inl h
      · exact Or.inr ⟨heq, Nat.lt_of_le_of_ne hle hne⟩
  · intro hnum
    have hiff : ∀ a ∈ (names.filter isSupportedFile).enum,
        ∀ b ∈ (names.filter isSupportedFile).enum,
        lexLe a b ↔ lexLe (a.1, joinPath env.folder a.2) (b.1, joinPath env.folder b.2) := by
      intro a ha b hb
      unfold lexLe
      simp only [joinPath_lt_iff, joinPath_inj_iff]
    obtain ⟨l, hperm, hmap, hpw⟩ :=
      stable_sort_char lexLe (joinPath env.folder) (names.filter isSupportedFile) hiff
    refine ⟨l, hperm, ?_, ?_⟩
    · unfold orderedPaths sortPaths
      rw [hnum]
      simp only [if_false, Bool.false_eq_true]
      unfold pySortLex
      rw [hcand]
      exact hmap
    · refine hpw.imp ?_
      intro a b hab
      rcases hab with ⟨hR, hne⟩
      rcases hR with h | ⟨heq, hle⟩
      · exact Or.inl h
      · exact Or.inr ⟨heq, Nat.lt_of_le_of_ne hle hne⟩

/-- C4 witness: the numeric branch instantiated on a concrete two-file
listing (keys 2 and 10). -/
theorem C4_processing_order_witness :
    ∃ l : List (Nat × Name),
      l.Perm (namesW4.filter isSupportedFile).enum ∧
      orderedPaths envW4 sQuick = l.map (fun q => joinPath envW4.folder q.2) ∧
      l.Pairwise (fun a b => digitKey a.2 < digitKey b.2 ∨
        (digitKey a.2 = digitKey b.2 ∧ a.1 < b.1)) :=
  (C4_processing_order envW4 sQuick namesW4 rfl (by decide)).1 rfl

/-- C5: the run fails with NoFramesProcessed exactly when the folder held
supported files but every file on the (possibly truncated) processing list
failed to decode; in that case no save is attempted; and as soon as one
file decodes, individual failures cannot abort the run — it proceeds to
encoding (succeeding, or failing only as EncodeError). -/
theorem C5_skip_policy (env : Env) (s : Settings) (names : List Name)
    (hl : env.listing = some names) :
    ((runPipeline env s).1 = .error .noFramesProcessed ↔
      (candidatePaths env ≠ [] ∧ ∀ p ∈ truncatedPaths env s, env.decode p = none)) ∧
    ((runPipeline env s).1 = .error .noFramesProcessed →
      (runPipeline env s).2.saveAttempted = false) ∧
    ((∃ p ∈ truncatedPaths env s, (env.decode p).isSome) →
      (∃ e, (runPipeline env s).1 = .ok e) ∨
        (runPipeline env s).1 = .error .encodeError) := by
  unfold runPipeline
  rw [hl]
  by_cases hc : candidatePaths env = []
  · rw [if_pos hc]
    have ht : truncatedPaths env s = [] := by
      unfold truncatedPaths orderedPaths sortPaths pySortNumeric pySortLex
      rw [hc]
      cases s.sortNumerically <;> simp
    refine ⟨?_, ?_, ?_⟩
    · simp [hc]
    · intro hcontra
      simp at hcontra
    · intro ⟨p, hp, _⟩
      rw [ht] at hp
      simp at hp
  · rw [if_neg hc]
    simp only
    by_cases hr : (processed env s).1 = []
    · rw [if_pos hr]
      refine ⟨?_, ?_, ?_⟩
      · simp only [true_iff]
        refine ⟨hc, ?_⟩
        exact (processLoop_isEmpty_iff env (truncatedPaths env s) 0 0 none 0).mp hr
      · intro _
        rfl
      · intro ⟨p, hp, hdp⟩
        exfalso
        have := (processLoop_isEmpty_iff env (truncatedPaths env s) 0 0 none 0).mp hr p hp
        rw [this] at hdp
        simp at hdp
    · rw [if_neg hr]
      refine ⟨?_, ?_, ?_⟩
      · constructor
        · intro hcontra
          by_cases hs : env.saveOk
          · rw [if_pos hs] at hcontra
            simp at hcontra
          · rw [if_neg hs] at hcontra
            simp at hcontra
        · intro ⟨_, hall⟩
          exact absurd ((processLoop_isEmpty_iff env (truncatedPaths env s) 0 0 none 0).mpr hall) hr
      · intro hcontra
        by_cases hs : env.saveOk
        · rw [if_pos hs] at hcontra
          simp at hcontra
        · rw [if_neg hs] at hcontra
          simp at hcontra
      · intro _
        by_cases hs : env.saveOk
        · rw [if_pos hs]
          exact Or.inl ⟨_, rfl⟩
        · rw [if_neg hs]
          exact Or.inr rfl

/-- C5 witness: a 1-file folder whose file never decodes fails with
NoFramesProcessed. -/
theorem C5_skip_policy_witness :
    (runPipeline envC5 sQuick).1 = .error .noFramesProcessed :=
  (C5_skip_policy envC5 sQuick [nameA] rfl).1.mpr (by decide)

/-- C6: the frames produced are exactly the decodable files of a prefix of
the ordered, truncated list, in that order (the whole list when no early
stop happened), and the encoder writes the whole frame buffer unchanged. -/
theorem C6_frame_order_preserved (env : Env) (s : Settings) :
    ∃ j ≤ (truncatedPaths env s).length,
      ((processed env s).1.map Prod.fst =
        ((truncatedPaths env s).take j).filter (fun p => (env.decode p).isSome)) ∧
      ((processed env s).2.2 = false → j = (truncatedPaths env s).length) ∧
      (∀ e, (runPipeline env s).1 = .ok e → e.frames = (processed env s).1) := by
  obtain ⟨j, hj, hmap, hstop⟩ := processLoop_take_filter env (truncatedPaths env s) 0 0 none 0
  refine ⟨j, hj, hmap, hstop, ?_⟩
  intro e he
  unfold runPipeline at he
  rcases hls : env.listing with _ | names
  · rw [hls] at he
    simp at he
  · rw [hls] at he
    simp only at he
    by_cases hc : candidatePaths env = []
    · rw [if_pos hc] at he
      simp at he
    · rw [if_neg hc] at he
      by_cases hr : (processed env s).1 = []
      · rw [if_pos hr] at he
        simp at he
      · rw [if_neg hr] at he
        by_cases hs : env.saveOk
        · rw [if_pos hs] at he
          injection he with he2
          rw [← he2]
          exact encodeSequence_eq _
        · rw [if_neg hs] at he
          simp at he

/-- C6 witness: instantiated on the concrete two-file run. -/
theorem C6_frame_order_preserved_witness :
    ∃ j ≤ (truncatedPaths envC1 sQuick).length,
      ((processed envC1 sQuick).1.map Prod.fst =
        ((truncatedPaths envC1 sQuick).take j).filter (fun p => (envC1.decode p).isSome)) ∧
      ((processed envC1 sQuick).2.2 = false → j = (truncatedPaths envC1 sQuick).length) ∧
      (∀ e, (runPipeline envC1 sQuick).1 = .ok e → e.frames = (processed envC1 sQuick).1) :=
  C6_frame_order_preserved envC1 sQuick

/-- C7: the Format Filter accepts a filename exactly when the extension of
its lowered form — the suffix from the last dot — is one of the six
supported extensions. -/
theorem C7_format_filter (file : Name) :
    isSupportedFile file = true ↔ extOf (pyLower file) ∈ supportedFormats := by
  unfold isSupportedFile
  rw [List.any_eq_true]
  constructor
  · intro ⟨fmt, hfmt, hsuf⟩
    rw [List.isSuffixOf_iff_suffix] at hsuf
    have hfmt2 : fmt = ['.', 'j', 'p', 'g'] ∨ fmt = ['.', 'j', 'p', 'e', 'g'] ∨
        fmt = ['.', 'p', 'n', 'g'] ∨ fmt = ['.', 'b', 'm', 'p'] ∨
        fmt = ['.', 't', 'i', 'f', 'f'] ∨ fmt = ['.', 'w', 'e', 'b', 'p'] := by
      simpa [supportedFormats] using hfmt
    rcases hfmt2 with rfl | rfl | rfl | rfl | rfl | rfl <;>
    · rw [suffix_pattern_iff _ (by decide) _] at hsuf
      unfold extOf
      rw [if_pos hsuf.1, hsuf.2]
      simp [supportedFormats]
  · intro hmem
    by_cases hdot : '.' ∈ pyLower file
    · refine ⟨extOf (pyLower file), hmem, ?_⟩
      rw [List.isSuffixOf_iff_suffix]
      unfold extOf
      rw [if_pos hdot]
      rw [suffix_pattern_iff _ ?_ _]
      · exact ⟨hdot, by simp⟩
      · intro c hc
        have := List.mem_takeWhile_imp (by simpa using hc)
        simpa using this
    · unfold extOf at hmem
      rw [if_neg hdot] at hmem
      simp [supportedFormats] at hmem

end GifMaker

namespace GifMaker

set_option maxRecDepth 8000

/-- C8 counterexample: 101 files with utilization pinned at 90 percent,
where exactly the 100th file (in sort order) fails to decode.  The claim
demands a reclamation pass and sample after the first 100 files and — at 90
percent — an early stop before the 101st; the code instead skips the
boundary check because the 100th file raised, takes no sample at all, never
stops, and processes the 101st file. -/
theorem C8_counterexample :
    (processed envC8 sNum1000).2.1 = [] ∧
    (processed envC8 sNum1000).2.2 = false ∧
    (joinPath dFolder (nameN 101), 5, 5) ∈ (processed envC8 sNum1000).1 ∧
    (processed envC8 sNum1000).1.length = 100 := by
  decide

/-- C8 (amended): memory is reclaimed and sampled after the batch-size
boundary files that decode successfully (a failing boundary file skips the
check): every recorded sample position is a positive multiple of 100; a
successfully decoded file at a boundary always records a sample, and under
pressure above 80 percent stops the loop right there with only that frame
appended; when all samples stay at or below 80 the loop never stops early;
and an early-stopped run with a nonempty buffer still encodes and succeeds. -/
theorem C8_batch_sampling (env : Env) (s : Settings) (p : Name) (rest : List Name)
    (i k n : Nat) (base : Option (Nat × Nat)) :
    (∀ m ∈ (processed env s).2.1, m % 100 = 0 ∧ 0 < m) ∧
    ((∀ k2, env.memPercent k2 ≤ 80) → (processed env s).2.2 = false) ∧
    ((env.decode p).isSome → (i + 1) % 100 = 0 →
      (processLoop env (p :: rest) i k base n).2.1.head? = some (i + 1)) ∧
    ((env.decode p).isSome → (i + 1) % 100 = 0 → 80 < env.memPercent k →
      (processLoop env (p :: rest) i k base n).1.length = 1 ∧
      (processLoop env (p :: rest) i k base n).2.2 = true) ∧
    (∀ names, env.listing = some names → candidatePaths env ≠ [] →
      (processed env s).1 ≠ [] → env.saveOk = true →
      (runPipeline env s).1 =
        .ok ⟨encodeSequence (processed env s).1, s.duration, s.loop, s.optimize⟩) := by
  refine ⟨processLoop_samples_mod env _ 0 0 none 0, ?_, ?_, ?_, ?_⟩
  · intro hm
    exact processLoop_no_pressure_no_stop env hm _ 0 0 none 0
  · intro hd hb
    exact processLoop_boundary_sample env p rest i k n base hd hb
  · intro hd hb hm
    exact processLoop_boundary_stop env p rest i k n base hd hb hm
  · intro names hl hc hne hs2
    unfold runPipeline
    rw [hl]
    rw [if_neg hc]
    simp only
    rw [if_neg hne, if_pos hs2]

/-- C8 witness: the sampling facts at a 100-file boundary state, the
no-pressure state, and a successful early-stop-capable run. -/
theorem C8_batch_sampling_witness :
    (∀ m ∈ (processed envW8 sQuick).2.1, m % 100 = 0 ∧ 0 < m) ∧
    (processed envLow sQuick).2.2 = false ∧
    (processLoop envW8 [pathW8] 99 0 none 99).2.1.head? = some 100 ∧
    ((processLoop envW8 [pathW8] 99 0 none 99).1.length = 1 ∧
      (processLoop envW8 [pathW8] 99 0 none 99).2.2 = true) ∧
    (runPipeline envW8 sQuick).1 =
      .ok ⟨encodeSequence (processed envW8 sQuick).1, 500, 0, true⟩ := by
  obtain ⟨h1, _, h3, h4, h5⟩ := C8_batch_sampling envW8 sQuick pathW8 [] 99 0 99 none
  obtain ⟨_, h2, _, _, _⟩ := C8_batch_sampling envLow sQuick pathW8 [] 0 0 0 none
  exact ⟨h1, h2 (fun k2 => by show (10 : Nat) ≤ 80; decide), h3 (by decide) (by decide),
    h4 (by decide) (by decide) (by decide),
    h5 [name1] rfl (by decide) (by decide) rfl⟩

/-- C9: the CLI exits 0 exactly when the conversion reports success and 1
exactly when it reports failure; `create_gif_from_images` reports success
exactly when the pipeline produced an encoded artifact, and reports `False`
(rather than raising) on a nonexistent folder. -/
theorem C9_exit_code (env : Env) (a : CliArgs) (s : Settings) :
    (mainExitCode env a = 0 ↔ create_gif_from_images env (mainSettings a) = true) ∧
    (mainExitCode env a = 1 ↔ create_gif_from_images env (mainSettings a) = false) ∧
    (create_gif_from_images env s = true ↔ ∃ e, (runPipeline env s).1 = .ok e) ∧
    (env.listing = none → create_gif_from_images env s = false) := by
  refine ⟨?_, ?_, ?_, ?_⟩
  · unfold mainExitCode
    by_cases hb : create_gif_from_images env (mainSettings a)
    · simp [hb]
    · simp [hb]
  · unfold mainExitCode
    by_cases hb : create_gif_from_images env (mainSettings a)
    · simp [hb]
    · simp [hb]
  · unfold create_gif_from_images
    rcases hres : (runPipeline env s).1 with e | e
    · simp [hres]
    · simp
  · intro h
    unfold create_gif_from_images runPipeline
    rw [h]

/-- C9 witness: on a nonexistent folder the entry point returns `False`. -/
theorem C9_exit_code_witness :
    create_gif_from_images envNone sQuick = false :=
  (C9_exit_code envNone argsW9 sQuick).2.2.2 rfl

/-- C10: two runs differing only in the `quality` argument have identical
outcomes and identical traces, and report the same success value — the
parameter is accepted but never used. -/
theorem C10_quality_independent (env : Env) (d l : Nat) (o : Bool) (q q2 : Nat)
    (sn : Bool) (mf : Option Nat) :
    runPipeline env ⟨d, l, o, q, sn, mf⟩ = runPipeline env ⟨d, l, o, q2, sn, mf⟩ ∧
    create_gif_from_images env ⟨d, l, o, q, sn, mf⟩ =
      create_gif_from_images env ⟨d, l, o, q2, sn, mf⟩ :=
  ⟨rfl, rfl⟩

end GifMaker
